import Mathlib

/-!
Verification of the DevOpsDay_LLMSec scan-and-retrieve pipeline.

Shallow embedding of the repository's core functions over `List Char`
(Python strings) and `Nat`/`Int` (Python integers). Each definition is
transcribed from the named source function; theorems settle the frozen
claims about the natural-language specification.
-/

namespace LLMSec

/-- Shorthand: a Python string as a list of characters. -/
def cs (s : String) : List Char := s.toList

/-- ASCII lower-casing of one character, as Python `str.lower` acts on
ASCII input (the repository's patterns and metadata are ASCII). -/
def lowerChar (c : Char) : Char :=
  if 'A' ≤ c ∧ c ≤ 'Z' then Char.ofNat (c.toNat + 32) else c

/-- Python `s.lower()`. -/
def lowerStr (s : List Char) : List Char := s.map lowerChar

/-- `p` is a prefix of `l` (Boolean, structural). -/
def startsWithL : List Char → List Char → Bool
  | [], _ => true
  | _ :: _, [] => false
  | p :: ps, c :: cs => p = c && startsWithL ps cs

/-- Python substring containment `needle in hay` (empty needle matches). -/
def containsSub (needle : List Char) : List Char → Bool
  | [] => startsWithL needle []
  | c :: rest => startsWithL needle (c :: rest) || containsSub needle rest

/-- Case-insensitive containment, as `re.search(pattern, s, re.IGNORECASE)`
for a literal alternation branch `pattern`. -/
def containsCI (needle hay : List Char) : Bool :=
  containsSub (lowerStr needle) (lowerStr hay)

/-! ## Text Chunker — `utils.chunk_text`

```
def chunk_text(text, chunk_size=1000, overlap=200):
    chunks = []
    start = 0
    text_length = len(text)
    while start < text_length:
        end = min(start + chunk_size, text_length)
        chunks.append(text[start:end])
        start += chunk_size - overlap
    return chunks
```
-/

/-- The `while` loop of `chunk_text`, with explicit fuel bounding the
number of iterations. `text[start:end]` with `end = min(start+c, L)` is
`(text.drop start).take c`. When `overlap < chunk_size` the step
`c - o` is at least 1, so fuel `text.length + 1` never runs out and the
fuelled loop equals the source's unbounded loop. -/
def chunkTextGo (text : List Char) (c o : ℕ) : ℕ → ℕ → List (List Char)
  | 0, _ => []
  | fuel + 1, start =>
    if start < text.length then
      (text.drop start).take c :: chunkTextGo text c o fuel (start + (c - o))
    else
      []

/-- `utils.chunk_text` (defaults in the source: `chunk_size=1000`,
`overlap=200`). -/
def chunk_text (text : List Char) (c o : ℕ) : List (List Char) :=
  chunkTextGo text c o (text.length + 1) 0

/-- The loop variable `start` of `chunk_text` after `n` iterations of
`start += chunk_size - overlap`, over the integers (Python `int`
arithmetic, no truncation). The source performs no validation of
`overlap < chunk_size`, so this sequence is the loop's exact state for
every parameter pair. -/
def chunkStart (c o : ℤ) : ℕ → ℤ
  | 0 => 0
  | n + 1 => chunkStart c o n + (c - o)

/-- The overlap (number of shared character positions) between adjacent
chunks `i` and `i+1` of `chunk_text`: chunk `i` occupies positions
`[i*(c-o), i*(c-o) + len_i)` and chunk `i+1` starts at `(i+1)*(c-o)`. -/
def adjacentOverlap (text : List Char) (c o i : ℕ) : ℕ :=
  i * (c - o) + ((chunk_text text c o).getD i []).length - (i + 1) * (c - o)


/-! ## Risk Extractor — `analysis.detect_owasp_risks`

```
def detect_owasp_risks(analysis_text, content):
    detected = []
    risk_blocks = re.split(r'### Risk:', analysis_text)[1:]
    for block in risk_blocks:
        risk_name_match = re.search(r'(.+?)\n', block)
        severity_match = re.search(r'\*\*Severity\*\*: (Low|Medium|High)', block)
        reason_match = re.search(r'\*\*Reason\*\*: (.+?)(?=\n\*\*Suggestion\*\*:|$)',
                                 block, re.DOTALL)
        if risk_name_match and severity_match and reason_match:
            risk_name = risk_name_match.group(1).strip()
            severity = severity_match.group(1)
            ...corroboration filters...
            detected.append(dict risk_name severity)
    return detected
```
-/

/-- `\w` of Python `re` restricted to ASCII: letters, digits, underscore. -/
def isWordChar (c : Char) : Bool := c.isAlphanum || c == '_'

/-- `re.search(r'sh\b', s)` for an already-lowercased `s`: an occurrence of
`"sh"` whose following position is the end of the string or a non-word
character (the pattern has no leading boundary, so `"bash"` matches and
`"shell"` does not). -/
def shWordBoundary : List Char → Bool
  | c1 :: c2 :: rest =>
    (c1 == 's' && c2 == 'h' &&
      (match rest with | [] => true | r :: _ => !isWordChar r)) ||
    shWordBoundary (c2 :: rest)
  | _ => false

/-- `re.search(r'registry|image', content, re.IGNORECASE)`. -/
def registryVocab (content : List Char) : Bool :=
  containsCI (cs "registry") content || containsCI (cs "image") content

/-- `re.search(r'script|sh\b|bash|command', content, re.IGNORECASE)`. -/
def shellVocab (content : List Char) : Bool :=
  containsCI (cs "script") content || shWordBoundary (lowerStr content) ||
  containsCI (cs "bash") content || containsCI (cs "command") content

/-- `re.search(r'network|host|bridge|overlay', content, re.IGNORECASE)`. -/
def networkVocab (content : List Char) : Bool :=
  containsCI (cs "network") content || containsCI (cs "host") content ||
  containsCI (cs "bridge") content || containsCI (cs "overlay") content

/-- `re.search(r'gitlab|runner|token', content, re.IGNORECASE)`. -/
def gitlabVocab (content : List Char) : Bool :=
  containsCI (cs "gitlab") content || containsCI (cs "runner") content ||
  containsCI (cs "token") content

/-- The corroboration filter of `detect_owasp_risks`: `true` when the
candidate finding is dropped (`continue` in the source). -/
def droppedByFilter (risk_name content : List Char) : Bool :=
  (containsSub (cs "registry") (lowerStr risk_name) && !registryVocab content) ||
  (containsSub (cs "shell") (lowerStr risk_name) && !shellVocab content) ||
  (containsSub (cs "network") (lowerStr risk_name) && !networkVocab content) ||
  (containsSub (cs "gitlab") (lowerStr risk_name) && !gitlabVocab content)

/-- The shell-rule vocabulary as claim C2 words it — "script/shell/command
vocabulary" — written from the claim for comparison with the source's
`shellVocab` (which instead accepts `script`, word-final `sh`, `bash`,
`command`). -/
def claimShellVocab (content : List Char) : Bool :=
  containsCI (cs "script") content || containsCI (cs "shell") content ||
  containsCI (cs "command") content

/-- The corroboration filter as claim C2 words it: identical to the
source's filter except that the shell rule uses `claimShellVocab`. -/
def claimDroppedByFilter (risk_name content : List Char) : Bool :=
  (containsSub (cs "registry") (lowerStr risk_name) && !registryVocab content) ||
  (containsSub (cs "shell") (lowerStr risk_name) && !claimShellVocab content) ||
  (containsSub (cs "network") (lowerStr risk_name) && !networkVocab content) ||
  (containsSub (cs "gitlab") (lowerStr risk_name) && !gitlabVocab content)

/-- First occurrence of `delim` in a list: `some (before, after)` with the
delimiter removed, `none` when absent. -/
def splitFirst (delim : List Char) : List Char → Option (List Char × List Char)
  | [] => none
  | c :: rest =>
    if startsWithL delim (c :: rest) then
      some ([], (c :: rest).drop delim.length)
    else
      match splitFirst delim rest with
      | none => none
      | some (pre, post) => some (c :: pre, post)

/-- `re.split` on a literal delimiter, fuelled: each split removes at least
one character for a non-empty delimiter, so fuel `l.length + 1` realizes
the full split. -/
def splitOnGo (delim : List Char) : ℕ → List Char → List (List Char)
  | 0, l => [l]
  | fuel + 1, l =>
    match splitFirst delim l with
    | none => [l]
    | some (pre, post) => pre :: splitOnGo delim fuel post

/-- `re.split(delim_literal, l)`. -/
def splitOnSub (delim l : List Char) : List (List Char) :=
  splitOnGo delim (l.length + 1) l

/-- `re.split(r'### Risk:', analysis_text)[1:]`. -/
def riskBlocks (analysis_text : List Char) : List (List Char) :=
  (splitOnSub (cs "### Risk:") analysis_text).drop 1

/-- Characters before the first `'\n'`; `none` when the list has no
newline. -/
def upToNewline : List Char → Option (List Char)
  | [] => none
  | c :: rest =>
    if c = '\n' then some [] else (upToNewline rest).map (fun l => c :: l)

/-- `re.search(r'(.+?)\n', block)`'s group 1: the leftmost non-empty run of
non-newline characters terminated by a newline — skip leading newlines,
then take the first line, failing when no newline follows it. -/
def findNameLine : List Char → Option (List Char)
  | [] => none
  | c :: rest => if c = '\n' then findNameLine rest else upToNewline (c :: rest)

/-- Python `str.strip`'s whitespace set. -/
def isPySpace (c : Char) : Bool :=
  c == ' ' || c == '\t' || c == '\n' || c == '\r' ||
  c == Char.ofNat 11 || c == Char.ofNat 12

/-- Python `s.strip()`. -/
def stripStr (s : List Char) : List Char :=
  ((s.dropWhile isPySpace).reverse.dropWhile isPySpace).reverse

/-- The literal `"**Severity**: "`. -/
def sevMark : List Char := cs "**Severity**: "

/-- `re.search(r'\*\*Severity\*\*: (Low|Medium|High)', block)`'s group 1:
at the leftmost position where the whole pattern matches, the alternation
yields one of the three literals (case-sensitive). -/
def findSeverity : List Char → Option (List Char)
  | [] => none
  | c :: rest =>
    if startsWithL sevMark (c :: rest) then
      if startsWithL (cs "Low") ((c :: rest).drop sevMark.length) then
        some (cs "Low")
      else if startsWithL (cs "Medium") ((c :: rest).drop sevMark.length) then
        some (cs "Medium")
      else if startsWithL (cs "High") ((c :: rest).drop sevMark.length) then
        some (cs "High")
      else findSeverity rest
    else findSeverity rest

/-- The literal `"**Reason**: "`. -/
def reasonMark : List Char := cs "**Reason**: "

/-- Existence of `re.search(r'\*\*Reason\*\*: (.+?)(?=\n\*\*Suggestion\*\*:|$)',
block, re.DOTALL)`: with DOTALL the lazy group can always extend to the
end of the block where the `$` lookahead succeeds, so a match exists
exactly when some occurrence of the marker is followed by at least one
character. -/
def hasReason : List Char → Bool
  | [] => false
  | c :: rest =>
    (startsWithL reasonMark (c :: rest) &&
      decide (reasonMark.length < (c :: rest).length)) ||
    hasReason rest

/-- A `RiskFinding`: the dictionary `{"risk_name": ..., "severity": ...}`
appended by `detect_owasp_risks`. -/
structure Finding where
  risk_name : List Char
  severity : List Char
deriving DecidableEq

/-- One iteration of the block loop of `detect_owasp_risks`: the finding
the block contributes, or `none` when a required field is missing or the
corroboration filter fires. -/
def blockFinding (content block : List Char) : Option Finding :=
  match findNameLine block with
  | none => none
  | some nameLine =>
    match findSeverity block with
    | none => none
    | some sev =>
      if hasReason block then
        let nm := stripStr nameLine
        if droppedByFilter nm content then none
        else some { risk_name := nm, severity := sev }
      else none

/-- `analysis.detect_owasp_risks`. -/
def detect_owasp_risks (analysis_text content : List Char) : List Finding :=
  (riskBlocks analysis_text).filterMap (blockFinding content)

/-! ## Risk counting — `scan_directory` lines 189-194 and
`database.load_risk_count_from_db` -/

/-- `risk_count`: a Python dict in insertion order,
`risk_name ↦ (#Low, #Medium, #High)`. -/
abbrev RiskCount := List (List Char × (ℕ × ℕ × ℕ))

/-- Dict lookup `risk_count[risk_name]`. -/
def rcFind : RiskCount → List Char → Option (ℕ × ℕ × ℕ)
  | [], _ => none
  | (k, v) :: rest, nm => if k = nm then some v else rcFind rest nm

/-- Dict assignment `risk_count[risk_name] = v` (replace in place,
insertion order preserved; append when absent). -/
def rcSet : RiskCount → List Char → (ℕ × ℕ × ℕ) → RiskCount
  | [], nm, v => [(nm, v)]
  | (k, w) :: rest, nm, v =>
    if k = nm then (nm, v) :: rest else (k, w) :: rcSet rest nm v

/-- `counts[severity] += 1` on `{"Low": l, "Medium": m, "High": h}`:
`none` models Python's `KeyError` for any other key. -/
def bumpSeverity (t : ℕ × ℕ × ℕ) (sev : List Char) : Option (ℕ × ℕ × ℕ) :=
  if sev = cs "Low" then some (t.1 + 1, t.2.1, t.2.2)
  else if sev = cs "Medium" then some (t.1, t.2.1 + 1, t.2.2)
  else if sev = cs "High" then some (t.1, t.2.1, t.2.2 + 1)
  else none

/-- The update both code sites perform for one finding:
`if risk_name not in risk_count: risk_count[risk_name] = init_zero;
risk_count[risk_name][severity] += 1`. -/
def updateRC (rc : RiskCount) (f : Finding) : Option RiskCount :=
  let base := (rcFind rc f.risk_name).getD (0, 0, 0)
  match bumpSeverity base f.severity with
  | none => none
  | some t => some (rcSet rc f.risk_name t)

/-- Fold one record's finding list into the count. -/
def foldFindings : RiskCount → List Finding → Option RiskCount
  | rc, [] => some rc
  | rc, f :: fs =>
    match updateRC rc f with
    | none => none
    | some rc' => foldFindings rc' fs

/-! ## Persistence and the scan loop — `analysis.scan_directory`,
`database.store_in_database`, `database.load_risk_count_from_db` -/

/-- A row of the `scan_results` table as the claims need it: the stored
`file_path` and the deserialized `risks` list (`content`, `analysis` and
`timestamp` play no role in any claim). -/
structure ScanRecord where
  path : List Char
  risks : List Finding
deriving DecidableEq

/-- One file of a scan run, as `scan_directory`'s per-file loop sees it:
its path, the content `load_file_content` produced (`none` on a read
failure; the empty list is Python's falsy empty string), and the analysis
text the selected backend returned. -/
structure ScanItem where
  path : List Char
  content : Option (List Char)
  analysis : List Char
deriving DecidableEq

/-- The per-file pipeline of `scan_directory` (lines 170-203): skip when
the content is missing or empty, skip when the analysis contains
"Analysis failed" or "No vulnerabilities detected", otherwise extract
risks and build the record passed to `store_in_database`. -/
def processFile (it : ScanItem) : Option ScanRecord :=
  match it.content with
  | none => none
  | some content =>
    if content.isEmpty then none
    else if containsSub (cs "Analysis failed") it.analysis ||
            containsSub (cs "No vulnerabilities detected") it.analysis then none
    else some { path := it.path, risks := detect_owasp_risks it.analysis content }

/-- `clean_previous_data` inside `scan_directory`:
`DELETE FROM scan_results WHERE file_path LIKE '<directory>%'` — for a
wildcard-free directory string, deletes exactly the rows whose path the
directory prefixes. -/
def cleanPreviousData (directory : List Char) (db : List ScanRecord) :
    List ScanRecord :=
  db.filter (fun r => !startsWithL directory r.path)

/-- The records `scan_directory` inserts, one `store_in_database` call per
successfully analyzed file, in file order. -/
def scanRecords (items : List ScanItem) : List ScanRecord :=
  items.filterMap processFile

/-- The relational store after `scan_directory directory` runs over
`items`: stale rows for the directory are deleted first, then the new
records are appended in order. -/
def scanDirectoryDB (directory : List Char) (items : List ScanItem)
    (db : List ScanRecord) : List ScanRecord :=
  cleanPreviousData directory db ++ scanRecords items

/-- The incremental `risk_count` of `scan_directory` (lines 189-194):
folded file by file over each processed file's detected risks. -/
def scanRiskCountGo : RiskCount → List ScanItem → Option RiskCount
  | rc, [] => some rc
  | rc, it :: rest =>
    match processFile it with
    | none => scanRiskCountGo rc rest
    | some r =>
      match foldFindings rc r.risks with
      | none => none
      | some rc' => scanRiskCountGo rc' rest

/-- The `risk_count` value `scan_directory` returns (it starts from the
empty dict). -/
def scanRiskCount (items : List ScanItem) : Option RiskCount :=
  scanRiskCountGo [] items

/-- `database.load_risk_count_from_db`: replay `SELECT risks FROM
scan_results` in row order, folding every finding of every row. -/
def load_risk_count_from_db : RiskCount → List ScanRecord → Option RiskCount
  | rc, [] => some rc
  | rc, r :: rest =>
    match foldFindings rc r.risks with
    | none => none
    | some rc' => load_risk_count_from_db rc' rest

/-- The `risks` value `scan_directory` line 196 passes to
`store_in_database` (the `detected_risks` computed at line 188). -/
def relationalRisks (analysis_text content : List Char) : List Finding :=
  detect_owasp_risks analysis_text content

/-- The `risks` metadata value `store_in_vector_db` computes at
`database.py` line 68 by re-invoking the detector
(`detect_owasp_risks_func(analysis, content)`). -/
def vectorMetadataRisks (analysis_text content : List Char) : List Finding :=
  detect_owasp_risks analysis_text content

/-! ## Hosted-backend retry — `analyze_with_gemini` and the Gemini branch
of `generate_rag_response` -/

/-- One backend call's outcome: a response with candidates, a response
without candidates, or a raised exception carrying `str(e)`. -/
inductive GeminiOutcome where
  | ok (text : List Char)
  | empty
  | err (msg : List Char)
deriving DecidableEq

/-- `"quota" in str(e).lower()`. -/
def isQuotaMsg (msg : List Char) : Bool :=
  containsSub (cs "quota") (lowerStr msg)

/-- The `for attempt in range(max_retries)` loop of `analyze_with_gemini`
(lines 91-117), with `remaining = max_retries - attempt` as fuel: returns
the final string and the list of sleeps performed (each 60 seconds).
The `remaining = 0` case is unreachable from `max_retries ≥ 1` because
the last attempt always returns. -/
def geminiAnalyzeGo (backend : ℕ → GeminiOutcome) :
    ℕ → ℕ → List Char × List ℕ
  | _, 0 => ([], [])
  | attempt, remaining + 1 =>
    match backend attempt with
    | .ok text => (text, [])
    | .empty => (cs "No vulnerabilities detected in the provided code.", [])
    | .err msg =>
      if isQuotaMsg msg then
        if remaining ≥ 1 then
          let r := geminiAnalyzeGo backend (attempt + 1) remaining
          (r.1, 60 :: r.2)
        else
          (cs "Analysis failed due to quota limit: " ++ msg, [])
      else
        (cs "Analysis failed: " ++ msg, [])

/-- `analyze_with_gemini` with `max_retries = 3`, abstracting the backend
as the outcome of each attempt. -/
def analyze_with_gemini (backend : ℕ → GeminiOutcome) : List Char × List ℕ :=
  geminiAnalyzeGo backend 0 3

/-- The identical retry loop inside the Gemini branch of
`generate_rag_response` (lines 250-276), differing only in its message
strings. -/
def ragResponseGo (backend : ℕ → GeminiOutcome) :
    ℕ → ℕ → List Char × List ℕ
  | _, 0 => ([], [])
  | attempt, remaining + 1 =>
    match backend attempt with
    | .ok text => (text, [])
    | .empty => (cs "No response generated by Gemini. Please try again later.", [])
    | .err msg =>
      if isQuotaMsg msg then
        if remaining ≥ 1 then
          let r := ragResponseGo backend (attempt + 1) remaining
          (r.1, 60 :: r.2)
        else
          (cs "Response generation failed due to quota limit: " ++ msg, [])
      else
        (cs "Response generation failed: " ++ msg, [])

/-- The Gemini branch of `generate_rag_response` with `max_retries = 3`. -/
def generate_rag_response (backend : ℕ → GeminiOutcome) : List Char × List ℕ :=
  ragResponseGo backend 0 3

/-! ## RAG query path — `database.query_vectors` -/

/-- `re.search(r'\b(\w+(?:\.\w+)?)\b', question)`'s group 1: the leftmost
word run, optionally extended by a dot and a second word run when one
immediately follows. The leftmost match starts at the first word
character (necessarily at a word boundary); trailing boundaries hold
because the greedy runs are maximal. -/
def extractToken : List Char → Option (List Char)
  | [] => none
  | c :: rest =>
    if isWordChar c then
      let w1 := (c :: rest).takeWhile isWordChar
      match (c :: rest).dropWhile isWordChar with
      | '.' :: d :: r3 =>
        if isWordChar d then
          some (w1 ++ '.' :: (d :: r3).takeWhile isWordChar)
        else some w1
      | _ => some w1
    else extractToken rest

/-- One retrieved candidate of `collection.query`: its document text and
its `filename` metadata (already lowercased at storage time, lowercased
again by `query_vectors`). -/
structure Cand where
  doc : List Char
  filename : List Char
deriving DecidableEq

/-- The candidate-scanning loop of `query_vectors` (lines 128-135), over
the ranked candidates with the accumulated `filtered_docs`: an exact
filename match returns that document alone and stops; a substring match
in either direction appends the document. -/
def queryFilterLoop (target : List Char) (acc : List (List Char)) :
    List Cand → List (List Char)
  | [] => acc
  | cand :: rest =>
    if target = lowerStr cand.filename then [cand.doc]
    else if containsSub target (lowerStr cand.filename) ||
            containsSub (lowerStr cand.filename) target then
      queryFilterLoop target (acc ++ [cand.doc]) rest
    else
      queryFilterLoop target acc rest

/-- `query_vectors`' filtering of the retrieved candidates (the vector
search itself is the external store): with no extractable token the loop
appends nothing and the raw top results are returned; otherwise the loop
runs and the raw top results are the fallback when it collected
nothing. -/
def query_vectors_filter (question : List Char) (cands : List Cand) :
    List (List Char) :=
  match extractToken question with
  | none => cands.map (fun cand => cand.doc)
  | some tok =>
    let fd := queryFilterLoop (lowerStr tok) [] cands
    if fd.isEmpty then cands.map (fun cand => cand.doc) else fd

/-! # Theorems -/

/-- C3: `chunk_text` performs no validation of `overlap < chunk_size`.
When `chunk_size ≤ overlap` and the text is non-empty, the loop guard
`start < text_length` holds at every iteration: the loop never exits. -/
theorem chunk_text_no_validation (c o L : ℤ) (hco : c ≤ o) (hL : 1 ≤ L) :
    ∀ n, chunkStart c o n < L := by
  have key : ∀ n, chunkStart c o n ≤ 0 := by
    intro n
    induction n with
    | zero => simp [chunkStart]
    | succ n ih => simp only [chunkStart]; omega
  intro n
  have := key n
  omega

/-- Witness for C3 at `chunk_size = 1`, `overlap = 1`, a text of length 2:
the guard still holds after 5 iterations. -/
theorem chunk_text_no_validation_witness :
    (1 : ℤ) ≤ 1 ∧ (1 : ℤ) ≤ 2 ∧ chunkStart 1 1 5 < 2 :=
  ⟨le_refl 1, by norm_num, chunk_text_no_validation 1 1 2 (le_refl 1) (by norm_num) 5⟩

/-! ### Chunker geometry -/

lemma chunkTextGo_length_le (text : List Char) (c o : ℕ) :
    ∀ fuel start ch, ch ∈ chunkTextGo text c o fuel start → ch.length ≤ c := by
  intro fuel
  induction fuel with
  | zero => intro start ch h; simp [chunkTextGo] at h
  | succ n ih =>
    intro start ch h
    simp only [chunkTextGo] at h
    by_cases hs : start < text.length
    · simp only [if_pos hs, List.mem_cons] at h
      rcases h with h | h
      · subst h
        simp [List.length_take]
      · exact ih _ _ h
    · simp [if_neg hs] at h

lemma chunkTextGo_length_iff (text : List Char) (c o : ℕ) (hco : o < c) :
    ∀ fuel start i, text.length ≤ start + fuel →
      (i < (chunkTextGo text c o fuel start).length ↔
        start + i * (c - o) < text.length) := by
  intro fuel
  induction fuel with
  | zero =>
    intro start i hfuel
    simp only [chunkTextGo, List.length_nil]
    constructor
    · omega
    · intro h; exfalso
      have : start ≤ start + i * (c - o) := Nat.le_add_right _ _
      omega
  | succ n ih =>
    intro start i hfuel
    simp only [chunkTextGo]
    by_cases hs : start < text.length
    · simp only [if_pos hs, List.length_cons]
      cases i with
      | zero =>
        simp only [Nat.zero_mul, Nat.add_zero]
        exact iff_of_true (Nat.succ_pos _) hs
      | succ i =>
        have step : 1 ≤ c - o := by omega
        have hfuel' : text.length ≤ start + (c - o) + n := by omega
        have := ih (start + (c - o)) i hfuel'
        rw [Nat.succ_mul]
        constructor
        · intro h
          have hi : i < (chunkTextGo text c o n (start + (c - o))).length := by omega
          have := this.mp hi
          omega
        · intro h
          have : i < (chunkTextGo text c o n (start + (c - o))).length := by
            apply this.mpr; omega
          omega
    · simp only [if_neg hs, List.length_nil]
      constructor
      · omega
      · intro h; exfalso
        have : start ≤ start + i * (c - o) := Nat.le_add_right _ _
        omega

lemma chunkTextGo_getD (text : List Char) (c o : ℕ) (hco : o < c) :
    ∀ fuel start i, text.length ≤ start + fuel →
      start + i * (c - o) < text.length →
      (chunkTextGo text c o fuel start).getD i []
        = (text.drop (start + i * (c - o))).take c := by
  intro fuel
  induction fuel with
  | zero =>
    intro start i hfuel hi
    exfalso
    have : start ≤ start + i * (c - o) := Nat.le_add_right _ _
    omega
  | succ n ih =>
    intro start i hfuel hi
    have hs : start < text.length := by
      have : start ≤ start + i * (c - o) := Nat.le_add_right _ _
      omega
    simp only [chunkTextGo, if_pos hs]
    cases i with
    | zero => simp
    | succ i =>
      have step : 1 ≤ c - o := by omega
      rw [List.getD_cons_succ]
      have harith : start + (c - o) + i * (c - o) = start + (i + 1) * (c - o) := by
        rw [Nat.succ_mul]; omega
      rw [ih (start + (c - o)) i (by omega) (by omega), harith]

/-- C4 (amended): for `overlap < chunk_size`, `chunk_text` produces windows
of length at most `c` whose starting offsets are exactly the arithmetic
sequence `0, c-o, 2(c-o), ...` below the text length, which jointly cover
`[0, L)`; an adjacent pair overlaps in exactly `o` positions whenever the
earlier chunk is untruncated (`i*(c-o) + c ≤ L`) — truncated chunks (the
final chunk, and every chunk already reaching the end of the text) may
overlap the next one by less. -/
theorem chunk_text_geometry (text : List Char) (c o : ℕ) (hco : o < c) :
    (∀ ch ∈ chunk_text text c o, ch.length ≤ c) ∧
    (∀ i, i < (chunk_text text c o).length ↔ i * (c - o) < text.length) ∧
    (∀ i, i * (c - o) < text.length →
      (chunk_text text c o).getD i [] = (text.drop (i * (c - o))).take c) ∧
    (∀ k < text.length, ∃ i, i * (c - o) ≤ k ∧ k < i * (c - o) + c ∧
      i * (c - o) < text.length) ∧
    (∀ i, i * (c - o) + c ≤ text.length → adjacentOverlap text c o i = o) := by
  have hfuel : text.length ≤ 0 + (text.length + 1) := by omega
  refine ⟨?_, ?_, ?_, ?_, ?_⟩
  · intro ch hch
    exact chunkTextGo_length_le text c o _ _ ch hch
  · intro i
    have := chunkTextGo_length_iff text c o hco (text.length + 1) 0 i hfuel
    simpa [chunk_text] using this
  · intro i hi
    have := chunkTextGo_getD text c o hco (text.length + 1) 0 i hfuel (by omega)
    simpa [chunk_text] using this
  · intro k hk
    have hs : 0 < c - o := by omega
    refine ⟨k / (c - o), ?_, ?_, ?_⟩
    · have := Nat.div_mul_le_self k (c - o)
      omega
    · have hmod := Nat.div_add_mod k (c - o)
      have hlt := Nat.mod_lt k hs
      have hcomm : k / (c - o) * (c - o) = (c - o) * (k / (c - o)) :=
        Nat.mul_comm _ _
      omega
    · have := Nat.div_mul_le_self k (c - o)
      omega
  · intro i hi
    have hilt : i * (c - o) < text.length := by omega
    have hget := chunkTextGo_getD text c o hco (text.length + 1) 0 i hfuel (by omega)
    unfold adjacentOverlap
    have hct : (chunk_text text c o).getD i []
        = (text.drop (0 + i * (c - o))).take c := hget
    rw [hct]
    have hlen : ((text.drop (0 + i * (c - o))).take c).length = c := by
      simp only [List.length_take, List.length_drop]
      omega
    rw [hlen, Nat.succ_mul]
    omega

/-- Witness for C4 (amended) at text `"abcde"`, `chunk_size = 3`,
`overlap = 1`: chunk 1 is the window starting at offset 2, and chunks 0
and 1 overlap in exactly 1 position. -/
theorem chunk_text_geometry_witness :
    (1 : ℕ) < 3 ∧
    (chunk_text (cs "abcde") 3 1).getD 1 []
      = ((cs "abcde").drop (1 * (3 - 1))).take 3 ∧
    adjacentOverlap (cs "abcde") 3 1 0 = 1 :=
  ⟨by decide,
   (chunk_text_geometry (cs "abcde") 3 1 (by decide)).2.2.1 1 (by decide),
   (chunk_text_geometry (cs "abcde") 3 1 (by decide)).2.2.2.2 0 (by decide)⟩

/-- Counterexample to C4 as stated: with text `"abcdefghi"` (length 9),
`chunk_size = 10`, `overlap = 8`, there are 5 chunks; chunk 0 is truncated
by the end of the text, so chunks 0 and 1 — neither of which is the final
chunk — overlap in 7 positions, not `overlap = 8`. -/
theorem chunk_text_overlap_counterexample :
    (chunk_text (cs "abcdefghi") 10 8).length = 5 ∧
    (chunk_text (cs "abcdefghi") 10 8).getD 0 [] = cs "abcdefghi" ∧
    (chunk_text (cs "abcdefghi") 10 8).getD 1 [] = cs "cdefghi" ∧
    adjacentOverlap (cs "abcdefghi") 10 8 0 = 7 ∧ (7 : ℕ) ≠ 8 := by
  refine ⟨by decide, by decide, by decide, by decide, by decide⟩

/-! ### Risk Extractor -/

lemma filterMap_eq_map_of_isSome {α β : Type} (f : α → Option β) (d : β) :
    ∀ l : List α, (∀ a ∈ l, (f a).isSome = true) →
      l.filterMap f = l.map (fun a => (f a).getD d) := by
  intro l
  induction l with
  | nil => intro _; simp
  | cons a t ih =>
    intro h
    have ha := h a (List.mem_cons_self a t)
    have ht : ∀ x ∈ t, (f x).isSome = true :=
      fun x hx => h x (List.mem_cons_of_mem a hx)
    cases hfa : f a with
    | none => rw [hfa] at ha; simp at ha
    | some b => simp [List.filterMap_cons, hfa, ih ht]

lemma findSeverity_cases : ∀ (l s : List Char), findSeverity l = some s →
    s = cs "Low" ∨ s = cs "Medium" ∨ s = cs "High" := by
  intro l
  induction l with
  | nil => intro s h; simp [findSeverity] at h
  | cons c rest ih =>
    intro s h
    unfold findSeverity at h
    split at h
    · split at h
      · exact Or.inl (Option.some.inj h).symm
      · split at h
        · exact Or.inr (Or.inl (Option.some.inj h).symm)
        · split at h
          · exact Or.inr (Or.inr (Option.some.inj h).symm)
          · exact ih s h
    · exact ih s h

lemma blockFinding_severity (content block : List Char) (f : Finding)
    (h : blockFinding content block = some f) :
    findSeverity block = some f.severity := by
  cases hn : findNameLine block with
  | none => simp [blockFinding, hn] at h
  | some nameLine =>
    cases hs : findSeverity block with
    | none => simp [blockFinding, hn, hs] at h
    | some sev =>
      simp only [blockFinding, hn, hs] at h
      split at h
      · split at h
        · simp at h
        · injection h with h'
          subst h'
          rfl
      · simp at h

lemma bumpSeverity_isSome (t : ℕ × ℕ × ℕ) (sev : List Char)
    (h : sev = cs "Low" ∨ sev = cs "Medium" ∨ sev = cs "High") :
    (bumpSeverity t sev).isSome = true := by
  unfold bumpSeverity
  rcases h with h | h | h <;> subst h
  · rw [if_pos rfl]; rfl
  · rw [if_neg (by decide), if_pos rfl]; rfl
  · rw [if_neg (by decide), if_neg (by decide), if_pos rfl]; rfl

/-- Counterexample to C2 as stated: a block named "Reverse Shell" against
content "shell". The claim's shell-rule vocabulary (script/shell/command)
is present in the content, so by the claim the finding is kept; the
source's rule `script|sh\b|bash|command` does not match "shell" (the `sh`
is not word-final), so the source drops it. -/
theorem corroboration_shell_counterexample :
    droppedByFilter (cs "Reverse Shell") (cs "shell") = true ∧
    claimShellVocab (cs "shell") = true ∧
    claimDroppedByFilter (cs "Reverse Shell") (cs "shell") = false :=
  ⟨by decide, by decide, by decide⟩

/-- C2 (amended): a surviving candidate block is dropped exactly when one
of the four keyword rules fires — its name contains the keyword and the
content lacks that rule's vocabulary — where the shell rule's vocabulary
is the source's `script` / word-final `sh` / `bash` / `command` rather
than the claim's "script/shell/command". In particular a block named
"Insecure Registry Access" is dropped against content with no
registry/image tokens and kept against content containing
"registry:latest". -/
theorem corroboration_filter_amended :
    (∀ content block nameLine sev,
      findNameLine block = some nameLine → findSeverity block = some sev →
      hasReason block = true →
      (blockFinding content block = none ↔
        droppedByFilter (stripStr nameLine) content = true)) ∧
    (∀ nm content, droppedByFilter nm content = true ↔
      ((containsSub (cs "registry") (lowerStr nm) = true ∧
          registryVocab content = false) ∨
       (containsSub (cs "shell") (lowerStr nm) = true ∧
          shellVocab content = false) ∨
       (containsSub (cs "network") (lowerStr nm) = true ∧
          networkVocab content = false) ∨
       (containsSub (cs "gitlab") (lowerStr nm) = true ∧
          gitlabVocab content = false))) ∧
    (∀ content, shellVocab content = true ↔
      (containsCI (cs "script") content = true ∨
       shWordBoundary (lowerStr content) = true ∨
       containsCI (cs "bash") content = true ∨
       containsCI (cs "command") content = true)) ∧
    droppedByFilter (cs "Insecure Registry Access") (cs "plain yaml data") = true ∧
    droppedByFilter (cs "Insecure Registry Access") (cs "uses registry:latest") = false := by
  refine ⟨?_, ?_, ?_, by decide, by decide⟩
  · intro content block nameLine sev hn hs hr
    simp only [blockFinding, hn, hs, hr, if_true]
    by_cases hd : droppedByFilter (stripStr nameLine) content
    · simp [hd]
    · simp [hd]
  · intro nm content
    simp only [droppedByFilter, Bool.or_eq_true, Bool.and_eq_true,
      Bool.not_eq_true', or_assoc]
  · intro content
    simp only [shellVocab, Bool.or_eq_true, or_assoc]

/-- Witness for C2 (amended): an "Insecure Registry Access" block is
dropped against vocabulary-free content, and "Reverse Shell" against
content "shell" is dropped. -/
theorem corroboration_filter_amended_witness :
    blockFinding (cs "plain yaml data")
      (cs " Insecure Registry Access\n**Severity**: High\n**Reason**: bad\n")
      = none ∧
    droppedByFilter (cs "Reverse Shell") (cs "shell") = true := by
  constructor
  · exact (corroboration_filter_amended.1 (cs "plain yaml data") _
      (cs " Insecure Registry Access") (cs "High")
      (by decide) (by decide) (by decide)).mpr (by decide)
  · exact (corroboration_filter_amended.2.1 (cs "Reverse Shell")
      (cs "shell")).mpr (by decide)

/-- C5: when every block of the analysis is well-formed (all three fields
present) and triggers no corroboration filter — i.e. `blockFinding`
succeeds on it — `detect_owasp_risks` returns exactly one finding per
block, in block order, duplicates included; and a block on which
`blockFinding` fails (missing field or filtered) contributes nothing,
the remaining blocks' findings keeping their order. -/
theorem detect_owasp_risks_roundtrip (analysis_text content : List Char) :
    ((∀ b ∈ riskBlocks analysis_text, (blockFinding content b).isSome = true) →
      detect_owasp_risks analysis_text content
        = (riskBlocks analysis_text).map
            (fun b => (blockFinding content b).getD ⟨[], []⟩) ∧
      (detect_owasp_risks analysis_text content).length
        = (riskBlocks analysis_text).length) ∧
    (∀ bs1 b bs2, riskBlocks analysis_text = bs1 ++ b :: bs2 →
      blockFinding content b = none →
      detect_owasp_risks analysis_text content
        = bs1.filterMap (blockFinding content)
          ++ bs2.filterMap (blockFinding content)) := by
  constructor
  · intro h
    have e := filterMap_eq_map_of_isSome (blockFinding content)
      ⟨[], []⟩ (riskBlocks analysis_text) h
    refine ⟨e, ?_⟩
    show ((riskBlocks analysis_text).filterMap (blockFinding content)).length = _
    rw [e, List.length_map]
  · intro bs1 b bs2 hsplit hnone
    show ((riskBlocks analysis_text).filterMap (blockFinding content)) = _
    rw [hsplit, List.filterMap_append]
    simp [List.filterMap_cons, hnone]

/-- Witness for C5: an analysis with two identical well-formed blocks and
unfiltered names yields exactly 2 findings (duplicates preserved). -/
theorem detect_owasp_risks_roundtrip_witness :
    (∀ b ∈ riskBlocks (cs "### Risk: A\n**Severity**: Low\n**Reason**: r\n### Risk: A\n**Severity**: Low\n**Reason**: r\n"),
      (blockFinding (cs "x") b).isSome = true) ∧
    (detect_owasp_risks (cs "### Risk: A\n**Severity**: Low\n**Reason**: r\n### Risk: A\n**Severity**: Low\n**Reason**: r\n") (cs "x")).length
      = (riskBlocks (cs "### Risk: A\n**Severity**: Low\n**Reason**: r\n### Risk: A\n**Severity**: Low\n**Reason**: r\n")).length ∧
    (riskBlocks (cs "### Risk: A\n**Severity**: Low\n**Reason**: r\n### Risk: A\n**Severity**: Low\n**Reason**: r\n")).length = 2 := by
  refine ⟨by decide, ?_, by decide⟩
  exact ((detect_owasp_risks_roundtrip
    (cs "### Risk: A\n**Severity**: Low\n**Reason**: r\n### Risk: A\n**Severity**: Low\n**Reason**: r\n")
    (cs "x")).1 (by decide)).2

/-- C9: `detect_owasp_risks` is a pure function of its two inputs — two
invocations on equal inputs return equal finding lists — so the `risks`
`scan_directory` passes to `store_in_database` equal the `risks`
`store_in_vector_db` recomputes for the same file's chunk metadata by
re-invoking the detector on the same analysis and content. -/
theorem detect_owasp_risks_deterministic (a1 a2 c1 c2 : List Char)
    (ha : a1 = a2) (hc : c1 = c2) :
    detect_owasp_risks a1 c1 = detect_owasp_risks a2 c2 ∧
    relationalRisks a1 c1 = vectorMetadataRisks a2 c2 := by
  subst ha; subst hc; exact ⟨rfl, rfl⟩

/-- Witness for C9 at a concrete analysis/content pair. -/
theorem detect_owasp_risks_deterministic_witness :
    cs "### Risk: A\n**Severity**: Low\n**Reason**: r\n"
      = cs "### Risk: A\n**Severity**: Low\n**Reason**: r\n" ∧
    relationalRisks (cs "### Risk: A\n**Severity**: Low\n**Reason**: r\n") (cs "x")
      = vectorMetadataRisks (cs "### Risk: A\n**Severity**: Low\n**Reason**: r\n")
          (cs "x") :=
  ⟨rfl, (detect_owasp_risks_deterministic _ _ _ _ rfl rfl).2⟩

/-- C10: every finding `detect_owasp_risks` returns carries severity
"Low", "Medium" or "High" (the severity regex group admits nothing
else), so the update `risk_count[risk_name][severity] += 1` — performed
by `scan_directory` and by `load_risk_count_from_db` — never hits a
missing severity key once the three keys are initialized. -/
theorem detect_severity_valid (analysis_text content : List Char) (f : Finding)
    (hf : f ∈ detect_owasp_risks analysis_text content) :
    (f.severity = cs "Low" ∨ f.severity = cs "Medium" ∨ f.severity = cs "High") ∧
    (∀ rc : RiskCount, (updateRC rc f).isSome = true) := by
  have hex : ∃ b ∈ riskBlocks analysis_text, blockFinding content b = some f := by
    simpa [detect_owasp_risks, List.mem_filterMap] using hf
  obtain ⟨b, _, hb⟩ := hex
  have hsev := blockFinding_severity content b f hb
  have h3 := findSeverity_cases b f.severity hsev
  refine ⟨h3, ?_⟩
  intro rc
  have hbs := bumpSeverity_isSome ((rcFind rc f.risk_name).getD (0, 0, 0))
    f.severity h3
  cases hb2 : bumpSeverity ((rcFind rc f.risk_name).getD (0, 0, 0)) f.severity with
  | none => rw [hb2] at hbs; simp at hbs
  | some t => simp only [updateRC, hb2, Option.isSome_some]

/-- Witness for C10 at a concrete extracted finding. -/
theorem detect_severity_valid_witness :
    (⟨cs "A", cs "Low"⟩ : Finding)
      ∈ detect_owasp_risks (cs "### Risk: A\n**Severity**: Low\n**Reason**: r\n")
          (cs "x") ∧
    ((⟨cs "A", cs "Low"⟩ : Finding).severity = cs "Low" ∨
     (⟨cs "A", cs "Low"⟩ : Finding).severity = cs "Medium" ∨
     (⟨cs "A", cs "Low"⟩ : Finding).severity = cs "High") ∧
    (updateRC [] ⟨cs "A", cs "Low"⟩).isSome = true :=
  ⟨by decide,
   (detect_severity_valid (cs "### Risk: A\n**Severity**: Low\n**Reason**: r\n")
     (cs "x") ⟨cs "A", cs "Low"⟩ (by decide)).1,
   (detect_severity_valid (cs "### Risk: A\n**Severity**: Low\n**Reason**: r\n")
     (cs "x") ⟨cs "A", cs "Low"⟩ (by decide)).2 []⟩

/-! ### Hosted-backend retry -/

/-- C7: when every attempt raises a quota error, both operations make
exactly 3 attempts with a 60-second sleep between consecutive attempts
(two sleeps) and return a failure string built from the last error; when
the first attempt raises a non-quota error, both return a failure string
immediately with no retry and no sleep. -/
theorem gemini_retry_policy :
    (∀ (backend : ℕ → GeminiOutcome) (msgs : ℕ → List Char),
      (∀ a, a < 3 → backend a = GeminiOutcome.err (msgs a) ∧
        isQuotaMsg (msgs a) = true) →
      analyze_with_gemini backend
        = (cs "Analysis failed due to quota limit: " ++ msgs 2, [60, 60]) ∧
      generate_rag_response backend
        = (cs "Response generation failed due to quota limit: " ++ msgs 2,
            [60, 60])) ∧
    (∀ (backend : ℕ → GeminiOutcome) (msg : List Char),
      backend 0 = GeminiOutcome.err msg → isQuotaMsg msg = false →
      analyze_with_gemini backend = (cs "Analysis failed: " ++ msg, []) ∧
      generate_rag_response backend
        = (cs "Response generation failed: " ++ msg, [])) := by
  constructor
  · intro backend msgs h
    have h0 := h 0 (by omega)
    have h1 := h 1 (by omega)
    have h2 := h 2 (by omega)
    constructor
    · simp only [analyze_with_gemini, geminiAnalyzeGo, h0.1, h0.2, h1.1, h1.2,
        h2.1, h2.2]
      norm_num
    · simp only [generate_rag_response, ragResponseGo, h0.1, h0.2, h1.1, h1.2,
        h2.1, h2.2]
      norm_num
  · intro backend msg hb hq
    constructor
    · simp only [analyze_with_gemini, geminiAnalyzeGo, hb, hq]
      simp
    · simp only [generate_rag_response, ragResponseGo, hb, hq]
      simp

/-- Witness for C7: a backend that always raises a quota error, and one
that raises a non-quota error on the first attempt. -/
theorem gemini_retry_policy_witness :
    analyze_with_gemini (fun _ => GeminiOutcome.err (cs "429 quota exceeded"))
      = (cs "Analysis failed due to quota limit: " ++ cs "429 quota exceeded",
          [60, 60]) ∧
    generate_rag_response (fun _ => GeminiOutcome.err (cs "boom"))
      = (cs "Response generation failed: " ++ cs "boom", []) := by
  constructor
  · have hq : isQuotaMsg (cs "429 quota exceeded") = true := by decide
    exact (gemini_retry_policy.1
      (fun _ => GeminiOutcome.err (cs "429 quota exceeded"))
      (fun _ => cs "429 quota exceeded")
      (fun a _ => ⟨rfl, hq⟩)).1
  · exact (gemini_retry_policy.2 (fun _ => GeminiOutcome.err (cs "boom"))
      (cs "boom") rfl (by decide)).2

/-! ### RAG query path -/

lemma queryFilterLoop_exact (t : List Char) :
    ∀ (l : List Cand), (∃ cd ∈ l, lowerStr cd.filename = t) →
      ∀ acc, ∃ cd ∈ l, lowerStr cd.filename = t ∧
        queryFilterLoop t acc l = [cd.doc] := by
  intro l
  induction l with
  | nil => intro h; simp at h
  | cons cand rest ih =>
    intro h acc
    by_cases he : t = lowerStr cand.filename
    · refine ⟨cand, List.mem_cons_self _ _, he.symm, ?_⟩
      simp only [queryFilterLoop]
      rw [if_pos he]
    · have h' : ∃ cd ∈ rest, lowerStr cd.filename = t := by
        rcases h with ⟨cd, hmem, hcd⟩
        rcases List.mem_cons.mp hmem with rfl | hmem'
        · exact absurd hcd.symm he
        · exact ⟨cd, hmem', hcd⟩
      simp only [queryFilterLoop]
      rw [if_neg he]
      by_cases hsub : (containsSub t (lowerStr cand.filename) ||
          containsSub (lowerStr cand.filename) t) = true
      · rcases ih h' (acc ++ [cand.doc]) with ⟨cd1, hm1, hf1, he1⟩
        exact ⟨cd1, List.mem_cons_of_mem _ hm1, hf1, by rw [if_pos hsub]; exact he1⟩
      · rcases ih h' acc with ⟨cd2, hm2, hf2, he2⟩
        exact ⟨cd2, List.mem_cons_of_mem _ hm2, hf2, by rw [if_neg hsub]; exact he2⟩

/-- Counterexample to C1 as stated: the question "show config.yml"
contains the token "config.yml", which exactly equals the second
candidate's filename metadata, yet the result also contains the first
candidate's document, a chunk of the unrelated file "other.txt" — the
source only tries the question's first word token ("show"), which
matches nothing, so the unfiltered top results are returned. -/
theorem query_vectors_claim_counterexample :
    containsSub (cs "config.yml") (cs "show config.yml") = true ∧
    extractToken (cs "show config.yml") = some (cs "show") ∧
    query_vectors_filter (cs "show config.yml")
      [⟨cs "docA", cs "other.txt"⟩, ⟨cs "docB", cs "config.yml"⟩]
      = [cs "docA", cs "docB"] ∧
    (⟨cs "docA", cs "other.txt"⟩ : Cand).filename ≠ cs "config.yml" :=
  ⟨by decide, by decide, by decide, by decide⟩

/-- C1 (amended): when the question's *first* word token (the leftmost
match of the filename pattern) exactly equals the lowercased filename
metadata of some *retrieved* candidate, `query_vectors` returns exactly
one document — that of the first such candidate — discarding every other
candidate, including any ranked higher by raw similarity; the exact
match short-circuits the scan. -/
theorem query_vectors_exact_match (question : List Char) (cands : List Cand)
    (tok : List Char) (htok : extractToken question = some tok)
    (hex : ∃ cd ∈ cands, lowerStr cd.filename = lowerStr tok) :
    ∃ cd ∈ cands, lowerStr cd.filename = lowerStr tok ∧
      query_vectors_filter question cands = [cd.doc] := by
  rcases queryFilterLoop_exact (lowerStr tok) cands hex [] with ⟨cd, hm, hf, he⟩
  refine ⟨cd, hm, hf, ?_⟩
  simp only [query_vectors_filter, htok]
  rw [he]
  rfl

/-- Witness for C1 (amended): the question "config.yml risks" names the
stored file directly, so only that file's document is returned even
though another candidate ranks higher. -/
theorem query_vectors_exact_match_witness :
    extractToken (cs "config.yml risks") = some (cs "config.yml") ∧
    (∃ cd ∈ [(⟨cs "docA", cs "other.txt"⟩ : Cand), ⟨cs "docB", cs "config.yml"⟩],
      lowerStr cd.filename = lowerStr (cs "config.yml") ∧
      query_vectors_filter (cs "config.yml risks")
        [⟨cs "docA", cs "other.txt"⟩, ⟨cs "docB", cs "config.yml"⟩]
        = [cd.doc]) := by
  refine ⟨by decide, ?_⟩
  exact query_vectors_exact_match (cs "config.yml risks")
    [⟨cs "docA", cs "other.txt"⟩, ⟨cs "docB", cs "config.yml"⟩]
    (cs "config.yml") (by decide)
    ⟨⟨cs "docB", cs "config.yml"⟩, by decide, by decide⟩

/-! ### Directory invalidation and risk-count replay -/

lemma processFile_path (it : ScanItem) (r : ScanRecord)
    (h : processFile it = some r) : r.path = it.path := by
  cases hc : it.content with
  | none => simp [processFile, hc] at h
  | some content =>
    simp only [processFile, hc] at h
    split at h
    · simp at h
    · split at h
      · simp at h
      · injection h with h'
        rw [← h']

lemma mem_scanRecords (items : List ScanItem) (r : ScanRecord) :
    r ∈ scanRecords items ↔ ∃ it ∈ items, processFile it = some r := by
  simp [scanRecords, List.mem_filterMap]

lemma countP_scanRecords_zero (p : List Char) (items : List ScanItem)
    (h : ∀ it ∈ items, it.path ≠ p) :
    (scanRecords items).countP (fun r => decide (r.path = p)) = 0 := by
  rw [List.countP_eq_zero]
  intro r hr
  rcases (mem_scanRecords items r).mp hr with ⟨it, hit, hpr⟩
  have hp := processFile_path it r hpr
  simp [hp, h it hit]

lemma countP_scanRecords_one (p : List Char) :
    ∀ (items : List ScanItem), (items.map (fun it => it.path)).Nodup →
      ∀ it ∈ items, it.path = p → (processFile it).isSome = true →
      (scanRecords items).countP (fun r => decide (r.path = p)) = 1 := by
  intro items
  induction items with
  | nil => intro _ it hm; simp at hm
  | cons a rest ih =>
    intro hnd it hm hp hsome
    rw [List.map_cons, List.nodup_cons] at hnd
    rcases List.mem_cons.mp hm with rfl | hm'
    · cases hpa : processFile it with
      | none => rw [hpa] at hsome; simp at hsome
      | some r =>
        have hsr : scanRecords (it :: rest) = r :: scanRecords rest := by
          simp [scanRecords, List.filterMap_cons, hpa]
        rw [hsr]
        have hrp : r.path = p := by rw [processFile_path it r hpa, hp]
        rw [List.countP_cons]
        have hz : (scanRecords rest).countP (fun r => decide (r.path = p)) = 0 := by
          apply countP_scanRecords_zero
          intro it2 hit2 hp2
          apply hnd.1
          rw [hp, ← hp2]
          exact List.mem_map_of_mem _ hit2
        rw [hz]
        simp [hrp]
    · have hap : a.path ≠ p := by
        intro heq
        apply hnd.1
        rw [heq, ← hp]
        exact List.mem_map_of_mem _ hm'
      have hcount := ih hnd.2 it hm' hp hsome
      cases hpa : processFile a with
      | none =>
        have hsr : scanRecords (a :: rest) = scanRecords rest := by
          simp [scanRecords, List.filterMap_cons, hpa]
        rw [hsr]; exact hcount
      | some r =>
        have hsr : scanRecords (a :: rest) = r :: scanRecords rest := by
          simp [scanRecords, List.filterMap_cons, hpa]
        rw [hsr, List.countP_cons, hcount]
        have : r.path = a.path := processFile_path a r hpa
        simp [this, hap]

/-- C6: re-scanning a directory first deletes every stored record whose
path the directory prefixes, so after scanning the same directory twice
the directory's rows are exactly the second scan's records — and, when
the walked file paths are distinct, exactly one row per file stored by
the second scan, with nothing surviving from the first pass. -/
theorem scan_directory_invalidation (d : List Char)
    (items1 items2 : List ScanItem) (db0 : List ScanRecord)
    (_h1 : ∀ it ∈ items1, startsWithL d it.path = true)
    (h2 : ∀ it ∈ items2, startsWithL d it.path = true) :
    (scanDirectoryDB d items2 (scanDirectoryDB d items1 db0)).filter
        (fun r => startsWithL d r.path) = scanRecords items2 ∧
    ((items2.map (fun it => it.path)).Nodup →
      ∀ it ∈ items2, (processFile it).isSome = true →
      (scanDirectoryDB d items2 (scanDirectoryDB d items1 db0)).countP
          (fun r => decide (r.path = it.path)) = 1) := by
  have hclean : ∀ (db : List ScanRecord),
      (cleanPreviousData d db).filter (fun r => startsWithL d r.path) = [] := by
    intro db
    rw [List.filter_eq_nil_iff]
    intro r hr
    have := (List.mem_filter.mp hr).2
    simp only [Bool.not_eq_true'] at this
    simp [this]
  have hnew : (scanRecords items2).filter (fun r => startsWithL d r.path)
      = scanRecords items2 := by
    rw [List.filter_eq_self]
    intro r hr
    rcases (mem_scanRecords items2 r).mp hr with ⟨it, hit, hpr⟩
    rw [processFile_path it r hpr]
    exact h2 it hit
  constructor
  · rw [scanDirectoryDB, List.filter_append, hclean, hnew, List.nil_append]
  · intro hnd it hit hsome
    rw [scanDirectoryDB, List.countP_append]
    have hz : (cleanPreviousData d (scanDirectoryDB d items1 db0)).countP
        (fun r => decide (r.path = it.path)) = 0 := by
      rw [List.countP_eq_zero]
      intro r hr
      have hnp := (List.mem_filter.mp hr).2
      simp only [Bool.not_eq_true'] at hnp
      have hdp := h2 it hit
      simp only [decide_eq_true_eq]
      intro heq
      rw [heq] at hnp
      rw [hnp] at hdp
      exact Bool.false_ne_true hdp
    rw [hz, countP_scanRecords_one it.path items2 hnd it hit rfl hsome]

/-- Witness for C6 at a concrete two-scan run. -/
theorem scan_directory_invalidation_witness :
    (scanDirectoryDB (cs "/d/")
        [⟨cs "/d/b.yml", some (cs "y"), cs "### Risk: B\n**Severity**: Low\n**Reason**: r\n"⟩]
        (scanDirectoryDB (cs "/d/")
          [⟨cs "/d/a.yml", some (cs "x"), cs "### Risk: A\n**Severity**: High\n**Reason**: r\n"⟩]
          [])).filter (fun r => startsWithL (cs "/d/") r.path)
      = scanRecords
          [⟨cs "/d/b.yml", some (cs "y"), cs "### Risk: B\n**Severity**: Low\n**Reason**: r\n"⟩] :=
  (scan_directory_invalidation (cs "/d/")
    [⟨cs "/d/a.yml", some (cs "x"), cs "### Risk: A\n**Severity**: High\n**Reason**: r\n"⟩]
    [⟨cs "/d/b.yml", some (cs "y"), cs "### Risk: B\n**Severity**: Low\n**Reason**: r\n"⟩]
    [] (by decide) (by decide)).1

/-- Counterexample to C8 as stated: a store holding no records for the
scanned directory but one record for another directory. The incremental
count of the (empty) scan is the empty mapping, while
`load_risk_count_from_db` replays *all* persisted rows, including the
foreign one, and returns a non-empty mapping. -/
theorem risk_count_replay_counterexample :
    startsWithL (cs "/d/") (cs "/other/a.yml") = false ∧
    scanRiskCount ([] : List ScanItem) = some [] ∧
    load_risk_count_from_db []
      (scanDirectoryDB (cs "/d/") []
        [⟨cs "/other/a.yml", [⟨cs "X", cs "High"⟩]⟩])
      = some [(cs "X", (0, 0, 1))] ∧
    some [(cs "X", ((0 : ℕ), (0 : ℕ), (1 : ℕ)))] ≠ (some [] : Option RiskCount) :=
  ⟨by decide, by decide, by decide, by decide⟩

/-- C8 (amended): starting from an *empty* store, the incremental
`risk_count` aggregated by `scan_directory` equals the count obtained by
replaying the persisted records with `load_risk_count_from_db`: both
fold every finding occurrence through the same severity update, and the
replay depends only on the persisted records. -/
theorem risk_count_replay_amended (d : List Char) (items : List ScanItem) :
    load_risk_count_from_db [] (scanDirectoryDB d items [])
      = scanRiskCount items := by
  have hdb : scanDirectoryDB d items [] = scanRecords items := by
    simp [scanDirectoryDB, cleanPreviousData]
  rw [hdb]
  have key : ∀ (its : List ScanItem) (rc : RiskCount),
      load_risk_count_from_db rc (scanRecords its) = scanRiskCountGo rc its := by
    intro its
    induction its with
    | nil => intro rc; rfl
    | cons a rest ih =>
      intro rc
      cases hp : processFile a with
      | none =>
        have hsr : scanRecords (a :: rest) = scanRecords rest := by
          simp [scanRecords, List.filterMap_cons, hp]
        rw [hsr]
        simp only [scanRiskCountGo, hp]
        exact ih rc
      | some r =>
        have hsr : scanRecords (a :: rest) = r :: scanRecords rest := by
          simp [scanRecords, List.filterMap_cons, hp]
        rw [hsr]
        simp only [load_risk_count_from_db, scanRiskCountGo, hp]
        cases hf : foldFindings rc r.risks with
        | none => rfl
        | some rc' => exact ih rc'
  exact key items []

end LLMSec
